import Mathlib

/-!
Shallow embedding of `imdialog` (src/main.rs): the dialog model, the
directory lister, the input-dialog buffer, the menu argument pairing, the
draw bridge and the session event loop, together with proofs of the
specification claims.

Strings whose byte ordering matters (file names, C strings) are modelled as
`List Nat` of byte values. Machine `c_int` exit codes are modelled as `Nat`
(the program only ever uses 0 and 1). Fallible operations that would panic
in the source (out-of-bounds indexing) are modelled with `Option`, `none`
standing for the panic.
-/

namespace Imdialog

/-- Framebuffer width on non-ARM targets (src/main.rs line 44). -/
def FRAMEBUFFER_WIDTH : Int := 800

/-- Framebuffer height on non-ARM targets (src/main.rs line 46). -/
def FRAMEBUFFER_HEIGHT : Int := 600

/-- Fixed capacity of the input-dialog text buffer (src/main.rs line 53). -/
def MAX_TEXT_LENGTH : Nat := 1024

/-! ## Byte strings and `strcmp` -/

/-- Byte string: a list of byte values. -/
abbrev Bytes := List Nat

/-- The bytes of the literal "Up one level" (src/main.rs line 244). -/
def upOneLevel : Bytes := [85, 112, 32, 111, 110, 101, 32, 108, 101, 118, 101, 108]

/-- Model of C `strcmp` on NUL-free byte strings: lexicographic byte
comparison, a strict prefix comparing less (its terminating NUL byte is
smaller than any following byte of the longer string). -/
def strcmpBytes : Bytes → Bytes → Ordering
  | [], [] => Ordering.eq
  | [], _ :: _ => Ordering.lt
  | _ :: _, [] => Ordering.gt
  | a :: as, b :: bs =>
    if a < b then Ordering.lt
    else if b < a then Ordering.gt
    else strcmpBytes as bs

/-- The comparator actually used to order entries: `strcmp` did not answer
`Greater` (Rust `sort_by` sortedness relation, src/main.rs lines 235-241). -/
def strcmpLe (a b : Bytes) : Bool :=
  strcmpBytes a b != Ordering.gt

/-! ## Sorting

Rust's `Vec::sort_by` is a stable comparison sort. Because `strcmp`
answering `Equal` forces the two byte strings to be identical
(`strcmpBytes_eq_iff`), every correct sort produces the same output here, so
a structural insertion sort is an exact model. -/

/-- Insert a byte string into a sorted list of byte strings. -/
def insertEntry (x : Bytes) : List Bytes → List Bytes
  | [] => [x]
  | y :: ys => if strcmpLe x y then x :: y :: ys else y :: insertEntry x ys

/-- Sort a list of byte strings by `strcmp` (model of `entries.sort_by`,
src/main.rs lines 235-241). -/
def sortEntries : List Bytes → List Bytes
  | [] => []
  | x :: xs => insertEntry x (sortEntries xs)

/-- Sortedness predicate of the entry list: each pair in order compares
no greater than the later one by `strcmp`. -/
def EntriesSorted (l : List Bytes) : Prop :=
  List.Pairwise (fun a b => strcmpLe a b = true) l

instance (l : List Bytes) : Decidable (EntriesSorted l) := by
  unfold EntriesSorted
  infer_instance

/-! ## Directory Lister (`FileDialogEntries::new`, src/main.rs lines 195-259)

A filesystem path is modelled as its list of components below the root
(`fs::canonicalize` always yields an absolute path): the root `/` is `[]`
and has no parent; a non-empty component list has the parent obtained by
dropping the last component. The filesystem itself is a function from paths
to the outcome of listing them. -/

/-- Absolute path: components below the root. -/
abbrev PathM := List Bytes

/-- Result of one raw `read_dir` entry, as consumed by the lister loop. -/
inductive RawEntry
  | err
  | noName
  | undecodable
  | named (name : Bytes) (isDir : Bool)
  deriving DecidableEq

/-- Display string contributed by one raw entry: errors, nameless paths and
undecodable names are skipped (`continue`), directories get the trailing
`/` byte, and a name holding a NUL byte fails `CString::new` and is
skipped (src/main.rs lines 211-233). -/
def displayName : RawEntry → Option Bytes
  | RawEntry.named name isDir =>
    if 0 ∈ name then none
    else if isDir then some (name ++ [47]) else some name
  | _ => none

/-- Outcome of asking the filesystem about a path. -/
inductive DirListing
  | statError
  | notDirectory
  | readDirError
  | ok (children : List RawEntry)
  deriving DecidableEq

/-- A filesystem: what listing each path reports. -/
abbrev Fs := PathM → DirListing

/-- Model of `struct FileDialogEntries`: the display strings and the
selected index. -/
structure FileDialogEntries where
  entries : List Bytes
  index : Nat
  deriving DecidableEq

/-- Model of `FileDialogEntries::none` (src/main.rs lines 254-259). -/
def FileDialogEntries.noneEntries : FileDialogEntries :=
  { entries := [], index := 0 }

/-- The successful-listing core of `FileDialogEntries::new`: build display
strings, sort them by `strcmp`, then prepend the synthetic "Up one level"
entry when the path has a parent (src/main.rs lines 209-251). -/
def buildFileEntries (hasParent : Bool) (children : List RawEntry) : FileDialogEntries :=
  let displayed := children.filterMap displayName
  let sorted := sortEntries displayed
  { entries := if hasParent then upOneLevel :: sorted else sorted,
    index := 0 }

/-- Model of `FileDialogEntries::new` (src/main.rs lines 196-252): a stat
failure, a non-directory or a `read_dir` failure degrade to the empty
listing; otherwise the children are listed. The parent test
`path.parent().is_some()` is `path ≠ []` on canonical absolute paths. -/
def FileDialogEntries.new (fs : Fs) (path : PathM) : FileDialogEntries :=
  match fs path with
  | DirListing.statError => FileDialogEntries.noneEntries
  | DirListing.notDirectory => FileDialogEntries.noneEntries
  | DirListing.readDirError => FileDialogEntries.noneEntries
  | DirListing.ok children => buildFileEntries (!path.isEmpty) children

/-! ## FileDialog (src/main.rs lines 268-291, 551-579) -/

/-- Selected file kind (src/main.rs lines 262-266). -/
inductive SelectedFileType
  | file
  | directory
  deriving DecidableEq

/-- Model of `struct FileDialog`. -/
structure FileDialog where
  path : PathM
  entries : FileDialogEntries
  deriving DecidableEq

/-- Model of `FileDialog::selected_path` (src/main.rs lines 274-290): index
into the display strings at the current selection — `none` models the
out-of-bounds panic of `self.entries.entries[index]` — then strip a
trailing `/` byte (a directory marker) and push the name onto the current
path. -/
def FileDialog.selected_path (d : FileDialog) : Option (PathM × SelectedFileType) :=
  match d.entries.entries[d.entries.index]? with
  | none => none
  | some s =>
    if s.getLast? = some 47 then
      some (d.path ++ [s.dropLast], SelectedFileType.directory)
    else
      some (d.path ++ [s], SelectedFileType.file)

/-- Model of `Renderer::render_file_dialog` (src/main.rs lines 551-579).
Inputs beyond the dialog state are the interaction outcomes of this frame:
`newIndex` is the selection the list box wrote back, `activated` is
`igListBox` returning `true`, `okP` and `cancelP` are the two buttons.
The result is `none` when the source would panic (out-of-bounds entry
index inside `selected_path`), otherwise the new dialog state, the exit
code set this frame, and the path printed to stdout, if any. -/
def render_file_dialog (fs : Fs) (d0 : FileDialog) (newIndex : Nat)
    (activated okP cancelP : Bool) :
    Option (FileDialog × Option Nat × Option PathM) :=
  let d : FileDialog :=
    { d0 with entries := { d0.entries with index := newIndex } }
  let step : Option (FileDialog × Option Nat) :=
    if activated then
      if ¬ d.path.isEmpty ∧ d.entries.index = 0 then
        let p := d.path.dropLast
        some ({ path := p, entries := FileDialogEntries.new fs p }, none)
      else
        match d.selected_path with
        | none => none
        | some (_, SelectedFileType.file) => some (d, some 0)
        | some (sp, SelectedFileType.directory) =>
          some ({ path := sp, entries := FileDialogEntries.new fs sp }, none)
    else some (d, none)
  match step with
  | none => none
  | some (d1, e0) =>
    let e1 : Option Nat := if okP then some 0 else e0
    let e2 : Option Nat := if cancelP then some 1 else e1
    if e2 = some 0 then
      match d1.selected_path with
      | none => none
      | some (sp, _) => some (d1, e2, some sp)
    else some (d1, e2, none)

/-! ## InputDialog (src/main.rs lines 293-296, 374-395, 581-605) -/

/-- Model of `struct InputDialog`: the prompt and the fixed-capacity edit
buffer, a byte vector. -/
structure InputDialog where
  text : String
  data : Bytes
  deriving DecidableEq

/-- Model of `Vec::resize(n, 0)`: truncate to `n` elements or pad with
zero bytes up to `n`. -/
def listResize (l : Bytes) (n : Nat) : Bytes :=
  l.take n ++ List.replicate (n - l.length) 0

/-- The buffer built by `Dialog::inputbox` (src/main.rs lines 379-385):
copy the initial text's bytes plus its NUL terminator when initial text was
given, resize to `MAX_TEXT_LENGTH - 1` padding with zero bytes, then push a
final zero byte. -/
def inputboxData (initial : Option Bytes) : Bytes :=
  let d : Bytes :=
    match initial with
    | some i => i ++ [0]
    | none => []
  listResize d (MAX_TEXT_LENGTH - 1) ++ [0]

/-- The bytes printed on submit (src/main.rs lines 597-601): the buffer up
to, excluding, its first zero byte — the whole buffer when no zero byte
exists. -/
def printedText (data : Bytes) : Bytes :=
  data.takeWhile (fun b => b != 0)

/-- Model of `Renderer::render_input_dialog` (src/main.rs lines 581-605).
`submit` is `igInputText` returning `true` (enter pressed in the field),
`okP` and `cancelP` are the buttons, applied in source order: the OK
button sets exit code 0 and the Cancel button then sets exit code 1.
Result: the exit code set this frame and the bytes printed, if any. -/
def render_input_dialog (d : InputDialog) (submit okP cancelP : Bool) :
    Option Nat × Option Bytes :=
  let e0 : Option Nat := if submit then some 0 else none
  let e1 : Option Nat := if okP then some 0 else e0
  let e2 : Option Nat := if cancelP then some 1 else e1
  (e2, if e2 = some 0 then some (printedText d.data) else none)

/-- Modelled from the spec: the in-place edit that the external
`igInputText` routine performs on the buffer is not part of this
repository's source; per the spec the buffer is a fixed-capacity region
that the editor fills with at most `capacity - 1` text bytes followed by a
NUL terminator, leaving the region's length unchanged. An edit writing
text `t` keeps the first `min (length t) (length data - 1)` bytes of `t`,
a terminator, and the untouched tail of the region. -/
def applyEdit (data : Bytes) (t : Bytes) : Bytes :=
  let n := min t.length (data.length - 1)
  t.take n ++ [0] ++ data.drop (n + 1)

/-- A whole interactive session of edits applied in order. -/
def applyEdits (data : Bytes) : List Bytes → Bytes
  | [] => data
  | t :: ts => applyEdits (applyEdit data t) ts

/-! ## MenuDialog and argument pairing (src/main.rs lines 175-178, 298-303,
311-315, 324-357, 397-428, 607-624) -/

/-- Model of `struct MenuItem`. -/
structure MenuItem where
  tag : String
  item : String
  deriving DecidableEq

/-- Model of `struct MenuDialog`. -/
structure MenuDialog where
  text : String
  menu_height : Nat
  items : List MenuItem
  deriving DecidableEq

/-- Model of `enum Subdialog`. -/
inductive Subdialog
  | file (d : FileDialog)
  | input (d : InputDialog)
  | menu (d : MenuDialog)
  deriving DecidableEq

/-- Model of `struct Dialog`. -/
structure Dialog where
  width : Nat
  height : Nat
  subdialog : Subdialog
  deriving DecidableEq

/-- Exit code used by `usage` (src/main.rs line 314): the help text is
printed and the process exits with code 0. -/
def usageExitCode : Nat := 0

/-- The tag and label pairing loop of `Dialog::menu` (src/main.rs lines
403-417): values are consumed two at a time; a tag with no following label
aborts the whole construction with `None`. -/
def menuPairs : List String → Option (List MenuItem)
  | [] => some []
  | [_] => none
  | tag :: item :: rest =>
    (menuPairs rest).map (fun items => { tag := tag, item := item } :: items)

/-- Model of `Dialog::menu` (src/main.rs lines 397-428) after the leading
prompt, width, height and row-height values have been taken: pair up the
remaining values, `none` when a tag is unpaired. -/
def Dialog.menu (text : String) (width height menu_height : Nat)
    (rest : List String) : Option Dialog :=
  (menuPairs rest).map (fun items =>
    { width := width, height := height,
      subdialog := Subdialog.menu
        { text := text, menu_height := menu_height, items := items } })

/-- Outcome of `Dialog::new`: either a constructed dialog, or the `usage`
fallthrough printing the help text and exiting with `usageExitCode`. -/
inductive NewOutcome
  | dialog (d : Dialog)
  | usageExit (code : Nat)
  deriving DecidableEq

/-- Model of the menu-mode branch of `Dialog::new` (src/main.rs lines
350-356): when `Dialog::menu` declines to build a dialog, control falls
through to `usage(&help_string)`. -/
def Dialog.newMenuMode (text : String) (width height menu_height : Nat)
    (rest : List String) : NewOutcome :=
  match Dialog.menu text width height menu_height rest with
  | some d => NewOutcome.dialog d
  | none => NewOutcome.usageExit usageExitCode

/-! ## Draw Bridge (`Renderer::render_draw_lists`, src/main.rs lines
663-709)

Clip-rectangle coordinates are modelled as integers (the source's `f32`
values cast to `c_int`); a sub-command's clip rectangle is the quadruple
`(x, y, z, w)` = (left, top, right, bottom) in UI coordinates. -/

/-- One sub-command of a draw batch: an element count and a clip
rectangle. -/
structure DrawCmd where
  elemCount : Nat
  clipX : Int
  clipY : Int
  clipZ : Int
  clipW : Int
  deriving DecidableEq

/-- One draw batch: its vertex-buffer byte size and its sub-commands. -/
structure DrawList where
  vertexBytes : Nat
  cmds : List DrawCmd
  deriving DecidableEq

/-- GPU work items issued by the bridge, in order. -/
inductive GLCall
  | bufferData (bytes : Nat)
  | scissor (x y w h : Int)
  | drawElements (count : Nat) (indexOffset : Nat)
  deriving DecidableEq

/-- The inner sub-command loop of `render_draw_lists` (src/main.rs lines
691-706): for each sub-command set the scissor rectangle — translated to
framebuffer coordinates with the vertical axis inverted — then issue one
indexed draw reading at the current index-buffer cursor, and advance the
cursor by the sub-command's element count. -/
def renderCmds (offset : Nat) : List DrawCmd → List GLCall
  | [] => []
  | c :: cs =>
    GLCall.scissor c.clipX (FRAMEBUFFER_HEIGHT - c.clipW)
        (c.clipZ - c.clipX) (c.clipW - c.clipY)
      :: GLCall.drawElements c.elemCount offset
      :: renderCmds (offset + c.elemCount) cs

/-- Model of `Renderer::render_draw_lists` (src/main.rs lines 663-709):
for each batch in submission order, upload its vertex buffer, then walk its
sub-commands with the index cursor starting at 0. -/
def render_draw_lists (lists : List DrawList) : List GLCall :=
  match lists with
  | [] => []
  | dl :: rest =>
    (GLCall.bufferData dl.vertexBytes :: renderCmds 0 dl.cmds)
      ++ render_draw_lists rest

/-- Projection of a GL call to a draw call's element count and index
cursor. -/
def drawOf : GLCall → Option (Nat × Nat)
  | GLCall.drawElements c o => some (c, o)
  | _ => none

/-- Projection of a GL call to a scissor rectangle. -/
def scissorOf : GLCall → Option (Int × Int × Int × Int)
  | GLCall.scissor x y w h => some (x, y, w, h)
  | _ => none

/-- The draw calls a sub-command list should produce: one per sub-command,
with the index cursor equal to the running sum of earlier element
counts. -/
def cmdDraws (offset : Nat) : List DrawCmd → List (Nat × Nat)
  | [] => []
  | c :: cs => (c.elemCount, offset) :: cmdDraws (offset + c.elemCount) cs

/-- The scissor rectangle a sub-command's clip rectangle is translated to:
same left edge, vertical axis inverted against the framebuffer height,
extents from the rectangle's corner differences. -/
def clipToScissor (c : DrawCmd) : Int × Int × Int × Int :=
  (c.clipX, FRAMEBUFFER_HEIGHT - c.clipW, c.clipZ - c.clipX, c.clipW - c.clipY)

/-! ## Session loop (src/main.rs lines 803-872)

One loop iteration of `main`: render a frame (a set exit code breaks the
loop), block for one event when the queue is empty, drain all immediately
available events, remove and apply exactly the queue's first event, poll
the pointer, render again (a set exit code breaks the loop), swap.
`exit_code` starts at 0 and is only reassigned at the two render break
points, so a `Quit` event or an `Escape` key-down terminates the process
with the exit code current at that moment. -/

/-- SDL scancode value of the Escape key. -/
def escapeScancode : Nat := 41

/-- Discrete queued input events (the continuously-polled pointer state is
not queued). -/
inductive EventM
  | quit
  | keyDown (scancode : Nat)
  | keyUp (scancode : Nat)
  | textInput (valid : Bool)
  | other
  deriving DecidableEq

/-- Outcome of one loop iteration. -/
inductive IterOut
  | exited (code : Nat)
  | blocked
  | next (queue : List EventM)
  deriving DecidableEq

/-- One iteration of the session loop (src/main.rs lines 806-868).
`exitCode` is the current value of the `exit_code` variable, `q` the event
queue, `arrivals` the events that become available this iteration in
order, and `r1` and `r2` the exit codes the two renders of the iteration
report. When the queue is empty the loop blocks for the first arrival
(never completing when there is none) and drains the rest; otherwise it
drains all arrivals behind the queue. Exactly the first queued event is
then removed and applied: `Quit` breaks with the current exit code, a
key-down of the Escape scancode breaks with the current exit code, every
other event updates input state and falls through to the second render. -/
def loopIteration (exitCode : Nat) (q arrivals : List EventM)
    (r1 r2 : Option Nat) : IterOut :=
  match r1 with
  | some c => IterOut.exited c
  | none =>
    match q ++ arrivals with
    | [] => IterOut.blocked
    | e :: rest =>
      let fallThrough : IterOut :=
        match r2 with
        | some c => IterOut.exited c
        | none => IterOut.next rest
      match e with
      | EventM.quit => IterOut.exited exitCode
      | EventM.keyDown sc =>
        if sc = escapeScancode then IterOut.exited exitCode else fallThrough
      | _ => fallThrough

/-- Per-iteration interaction data: the events arriving during the
iteration and the exit codes its two renders report. -/
structure IterInput where
  arrivals : List EventM
  r1 : Option Nat
  r2 : Option Nat
  deriving DecidableEq

/-- Outcome of running finitely many iterations. -/
inductive RunOut
  | exited (code : Nat)
  | blocked
  | running (queue : List EventM)
  deriving DecidableEq

/-- Run the session loop over a finite script of iteration inputs. `main`
enters the loop with `exitCode = 0` and an empty queue (src/main.rs lines
804-805); `exit_code` is never reassigned on a path that continues
looping, so the running exit code is a loop constant. -/
def runLoop (exitCode : Nat) (q : List EventM) : List IterInput → RunOut
  | [] => RunOut.running q
  | inp :: rest =>
    match loopIteration exitCode q inp.arrivals inp.r1 inp.r2 with
    | IterOut.exited c => RunOut.exited c
    | IterOut.blocked => RunOut.blocked
    | IterOut.next q2 => runLoop exitCode q2 rest

/-! ## Concrete example data used by witnesses -/

/-- Example draw data: two batches with two and one sub-commands. -/
def exampleDrawLists : List DrawList :=
  [{ vertexBytes := 80,
     cmds := [{ elemCount := 6, clipX := 0, clipY := 0, clipZ := 10, clipW := 20 },
              { elemCount := 3, clipX := 2, clipY := 1, clipZ := 8, clipW := 9 }] },
   { vertexBytes := 40,
     cmds := [{ elemCount := 9, clipX := 1, clipY := 2, clipZ := 3, clipW := 4 }] }]

/-- Example filesystem: every path lists one directory "b" and one file
"a". -/
def exampleFs : Fs :=
  fun _ => DirListing.ok [RawEntry.named [98] true, RawEntry.named [97] false]

/-- Example path with a parent. -/
def examplePath : PathM := [[120]]

/-! ## Helper lemmas -/

theorem strcmpBytes_eq_iff : ∀ a b : Bytes, strcmpBytes a b = Ordering.eq ↔ a = b := by
  intro a
  induction a with
  | nil => intro b; cases b <;> simp [strcmpBytes]
  | cons x xs ih =>
    intro b
    cases b with
    | nil => simp [strcmpBytes]
    | cons y ys =>
      simp only [strcmpBytes]
      by_cases hxy : x < y
      · simp [hxy]
        omega
      · by_cases hyx : y < x
        · simp [hxy, hyx]
          omega
        · have hxyeq : x = y := by omega
          simp [hxy, hyx, hxyeq, ih]

theorem strcmpBytes_swap : ∀ a b : Bytes,
    strcmpBytes b a = (strcmpBytes a b).swap := by
  intro a
  induction a with
  | nil => intro b; cases b <;> simp [strcmpBytes, Ordering.swap]
  | cons x xs ih =>
    intro b
    cases b with
    | nil => simp [strcmpBytes, Ordering.swap]
    | cons y ys =>
      simp only [strcmpBytes]
      by_cases hxy : x < y
      · have hyx : ¬ y < x := by omega
        simp [hxy, hyx, Ordering.swap]
      · by_cases hyx : y < x
        · simp [hxy, hyx, Ordering.swap]
        · simp [hxy, hyx, ih ys]

theorem strcmpBytes_trans : ∀ a b c : Bytes,
    strcmpBytes a b ≠ Ordering.gt → strcmpBytes b c ≠ Ordering.gt →
    strcmpBytes a c ≠ Ordering.gt := by
  intro a
  induction a with
  | nil =>
    intro b c _ _
    cases c <;> simp [strcmpBytes]
  | cons x xs ih =>
    intro b c hab hbc
    cases b with
    | nil => simp [strcmpBytes] at hab
    | cons y ys =>
      cases c with
      | nil => simp [strcmpBytes] at hbc
      | cons z zs =>
        simp only [strcmpBytes] at hab hbc ⊢
        by_cases hxy : x < y
        · by_cases hyz : y < z
          · have hxz : x < z := by omega
            simp [hxz]
          · by_cases hzy : z < y
            · simp [hyz, hzy] at hbc
            · have hyz2 : y = z := by omega
              have hxz : x < z := by omega
              simp [hxz]
        · by_cases hyx : y < x
          · simp [hxy, hyx] at hab
          · have hxy2 : x = y := by omega
            subst hxy2
            by_cases hyz : x < z
            · simp [hyz]
            · by_cases hzy : z < x
              · simp [hyz, hzy] at hbc
              · have hxz : x = z := by omega
                subst hxz
                simp [hyz] at hab hbc ⊢
                exact ih ys zs hab hbc

theorem strcmpLe_total (a b : Bytes) : strcmpLe a b = true ∨ strcmpLe b a = true := by
  unfold strcmpLe
  rw [strcmpBytes_swap a b]
  cases strcmpBytes a b <;> decide

theorem strcmpLe_trans {a b c : Bytes} (hab : strcmpLe a b = true)
    (hbc : strcmpLe b c = true) : strcmpLe a c = true := by
  unfold strcmpLe at hab hbc ⊢
  have h1 : strcmpBytes a b ≠ Ordering.gt := by
    intro h
    rw [h] at hab
    exact absurd hab (by decide)
  have h2 : strcmpBytes b c ≠ Ordering.gt := by
    intro h
    rw [h] at hbc
    exact absurd hbc (by decide)
  have h3 := strcmpBytes_trans a b c h1 h2
  cases hac : strcmpBytes a c
  · decide
  · decide
  · exact absurd hac h3

theorem mem_insertEntry (a x : Bytes) : ∀ l : List Bytes,
    a ∈ insertEntry x l ↔ a = x ∨ a ∈ l := by
  intro l
  induction l with
  | nil => simp [insertEntry]
  | cons y ys ih =>
    simp only [insertEntry]
    by_cases h : strcmpLe x y
    · simp [h]
    · simp only [h]
      simp [List.mem_cons, ih]
      tauto

theorem mem_sortEntries (a : Bytes) : ∀ l : List Bytes,
    a ∈ sortEntries l ↔ a ∈ l := by
  intro l
  induction l with
  | nil => simp [sortEntries]
  | cons x xs ih => simp [sortEntries, mem_insertEntry, ih]

theorem length_insertEntry (x : Bytes) : ∀ l : List Bytes,
    (insertEntry x l).length = l.length + 1 := by
  intro l
  induction l with
  | nil => simp [insertEntry]
  | cons y ys ih =>
    simp only [insertEntry]
    by_cases h : strcmpLe x y
    · simp [h]
    · simp [h, ih]

theorem length_sortEntries : ∀ l : List Bytes,
    (sortEntries l).length = l.length := by
  intro l
  induction l with
  | nil => simp [sortEntries]
  | cons x xs ih => simp [sortEntries, length_insertEntry, ih]

theorem pairwise_insertEntry (x : Bytes) : ∀ l : List Bytes,
    EntriesSorted l → EntriesSorted (insertEntry x l) := by
  intro l
  induction l with
  | nil => intro _; simp [insertEntry, EntriesSorted]
  | cons y ys ih =>
    intro hs
    unfold EntriesSorted at hs
    rcases List.pairwise_cons.mp hs with ⟨hy, hys⟩
    simp only [insertEntry]
    by_cases h : strcmpLe x y
    · simp only [h, if_true]
      refine List.pairwise_cons.mpr ⟨?_, hs⟩
      intro b hb
      rcases List.mem_cons.mp hb with hb | hb
      · exact hb ▸ h
      · exact strcmpLe_trans h (hy b hb)
    · simp only [h, if_false]
      refine List.pairwise_cons.mpr ⟨?_, ih hys⟩
      intro b hb
      rcases (mem_insertEntry b x ys).mp hb with hb | hb
      · rw [hb]
        rcases strcmpLe_total x y with hxy | hyx
        · exact absurd hxy h
        · exact hyx
      · exact hy b hb

theorem sortEntries_sorted : ∀ l : List Bytes, EntriesSorted (sortEntries l) := by
  intro l
  induction l with
  | nil => simp [sortEntries, EntriesSorted]
  | cons x xs ih => exact pairwise_insertEntry x (sortEntries xs) ih

theorem FileDialogEntries.new_index (fs : Fs) (path : PathM) :
    (FileDialogEntries.new fs path).index = 0 := by
  unfold FileDialogEntries.new
  cases fs path <;> simp [FileDialogEntries.noneEntries, buildFileEntries]

theorem menuPairs_none_of_odd : ∀ l : List String, l.length % 2 = 1 → menuPairs l = none
  | [], h => by simp at h
  | [_], _ => rfl
  | _ :: _ :: rest, h => by
    have h2 : rest.length % 2 = 1 := by
      simp only [List.length_cons] at h
      omega
    simp [menuPairs, menuPairs_none_of_odd rest h2]

theorem takeWhile_nonzero_append (l rest : Bytes) (h : ∀ b ∈ l, b ≠ 0) :
    (l ++ 0 :: rest).takeWhile (fun b => b != 0) = l := by
  induction l with
  | nil => simp
  | cons x xs ih =>
    have hx : x ≠ 0 := h x (by simp)
    have hxs : ∀ b ∈ xs, b ≠ 0 := fun b hb => h b (by simp [hb])
    simp only [List.cons_append, List.takeWhile_cons]
    simp [hx, ih hxs]

theorem takeWhile_nonzero_all (l : Bytes) (h : ∀ b ∈ l, b ≠ 0) :
    l.takeWhile (fun b => b != 0) = l := by
  induction l with
  | nil => simp
  | cons x xs ih =>
    have hx : x ≠ 0 := h x (by simp)
    have hxs : ∀ b ∈ xs, b ≠ 0 := fun b hb => h b (by simp [hb])
    simp only [List.takeWhile_cons]
    simp [hx, ih hxs]

theorem length_listResize (l : Bytes) (n : Nat) : (listResize l n).length = n := by
  simp [listResize]
  omega

theorem length_inputboxData (initial : Option Bytes) :
    (inputboxData initial).length = MAX_TEXT_LENGTH := by
  cases initial <;> simp [inputboxData, length_listResize, MAX_TEXT_LENGTH]

theorem zero_mem_inputboxData (initial : Option Bytes) :
    0 ∈ inputboxData initial := by
  cases initial <;> simp [inputboxData]

theorem printedText_inputboxData (i : Bytes) (hnul : 0 ∉ i) :
    printedText (inputboxData (some i)) = i.take (MAX_TEXT_LENGTH - 1) := by
  have hni : ∀ b ∈ i, b ≠ 0 := fun b hb hb0 => hnul (hb0 ▸ hb)
  unfold printedText inputboxData listResize MAX_TEXT_LENGTH
  simp only
  by_cases hlen : i.length + 1 ≤ 1024 - 1
  · have htake : (i ++ [0]).take (1024 - 1) = i ++ [0] := by
      apply List.take_of_length_le
      simp
      omega
    rw [htake]
    have harr : i ++ [0] ++ List.replicate (1024 - 1 - (i ++ [0]).length) 0 ++ [0] =
        i ++ 0 :: (List.replicate (1024 - 1 - (i ++ [0]).length) 0 ++ [0]) := by
      simp
    rw [harr, takeWhile_nonzero_append i _ hni]
    have : i.take (1024 - 1) = i := by
      apply List.take_of_length_le
      omega
    rw [this]
  · have htake : (i ++ [0]).take (1024 - 1) = i.take (1024 - 1) := by
      apply List.take_append_of_le_length
      omega
    have hrep : List.replicate (1024 - 1 - (i ++ [0]).length) 0 = ([] : Bytes) := by
      have : 1024 - 1 - (i ++ [0]).length = 0 := by
        simp
        omega
      rw [this, List.replicate_zero]
    rw [htake, hrep, List.append_nil]
    have hsub : ∀ b ∈ i.take (1024 - 1), b ≠ 0 :=
      fun b hb => hni b (List.mem_of_mem_take hb)
    have harr : i.take (1024 - 1) ++ [0] = i.take (1024 - 1) ++ 0 :: [] := rfl
    rw [harr, takeWhile_nonzero_append _ _ hsub]

theorem mem_of_getLast?_eq : ∀ (l : Bytes) (b : Nat), l.getLast? = some b → b ∈ l
  | [], _, h => by simp at h
  | [x], b, h => by
    simp at h
    simp [h]
  | x :: y :: rest, b, h => by
    rw [List.getLast?_cons_cons] at h
    exact List.mem_cons_of_mem x (mem_of_getLast?_eq (y :: rest) b h)

theorem applyEdit_length (data t : Bytes) (h : 1 ≤ data.length) :
    (applyEdit data t).length = data.length := by
  simp only [applyEdit, List.length_append, List.length_take, List.length_drop,
    List.length_cons, List.length_nil]
  omega

theorem zero_mem_applyEdit (data t : Bytes) : 0 ∈ applyEdit data t := by
  simp [applyEdit]

theorem applyEdits_invariant : ∀ (edits : List Bytes) (data : Bytes),
    data.length = MAX_TEXT_LENGTH → 0 ∈ data →
    (applyEdits data edits).length = MAX_TEXT_LENGTH ∧
      0 ∈ applyEdits data edits := by
  intro edits
  induction edits with
  | nil => intro data h1 h2; exact ⟨h1, h2⟩
  | cons t ts ih =>
    intro data h1 h2
    have hpos : 1 ≤ data.length := by rw [h1]; decide
    have hlen : (applyEdit data t).length = MAX_TEXT_LENGTH := by
      rw [applyEdit_length data t hpos, h1]
    exact ih (applyEdit data t) hlen (zero_mem_applyEdit data t)

theorem filterMap_drawOf_renderCmds : ∀ (cs : List DrawCmd) (offset : Nat),
    (renderCmds offset cs).filterMap drawOf = cmdDraws offset cs := by
  intro cs
  induction cs with
  | nil => intro o; simp [renderCmds, cmdDraws]
  | cons c cs ih =>
    intro o
    simp [renderCmds, cmdDraws, drawOf, ih]

theorem filterMap_scissorOf_renderCmds : ∀ (cs : List DrawCmd) (offset : Nat),
    (renderCmds offset cs).filterMap scissorOf = cs.map clipToScissor := by
  intro cs
  induction cs with
  | nil => intro o; simp [renderCmds]
  | cons c cs ih =>
    intro o
    simp [renderCmds, scissorOf, clipToScissor, ih]

theorem length_cmdDraws : ∀ (cs : List DrawCmd) (offset : Nat),
    (cmdDraws offset cs).length = cs.length := by
  intro cs
  induction cs with
  | nil => intro o; simp [cmdDraws]
  | cons c cs ih =>
    intro o
    simp [cmdDraws, ih]

theorem length_flatMap_cmdDraws (lists : List DrawList) :
    (lists.flatMap (fun dl => cmdDraws 0 dl.cmds)).length =
      (lists.map (fun dl => dl.cmds.length)).sum := by
  induction lists with
  | nil => simp
  | cons dl rest ih =>
    simp [List.flatMap_cons, Function.comp, length_cmdDraws, ih]

theorem filterMap_drawOf_render_draw_lists (lists : List DrawList) :
    (render_draw_lists lists).filterMap drawOf =
      lists.flatMap (fun dl => cmdDraws 0 dl.cmds) := by
  induction lists with
  | nil => simp [render_draw_lists]
  | cons dl rest ih =>
    simp [render_draw_lists, List.filterMap_append, drawOf,
      filterMap_drawOf_renderCmds, ih, List.flatMap_cons]

theorem filterMap_scissorOf_render_draw_lists (lists : List DrawList) :
    (render_draw_lists lists).filterMap scissorOf =
      lists.flatMap (fun dl => dl.cmds.map clipToScissor) := by
  induction lists with
  | nil => simp [render_draw_lists]
  | cons dl rest ih =>
    simp [render_draw_lists, List.filterMap_append, scissorOf,
      filterMap_scissorOf_renderCmds, ih, List.flatMap_cons]

theorem loopIteration_next_eq (ec : Nat) (q a : List EventM) (r1 r2 : Option Nat)
    (q2 : List EventM) (h : loopIteration ec q a r1 r2 = IterOut.next q2) :
    ∃ e, q ++ a = e :: q2 := by
  cases r1 with
  | some c => simp [loopIteration] at h
  | none =>
    cases hqa : q ++ a with
    | nil => simp [loopIteration, hqa] at h
    | cons e rest =>
      refine ⟨e, ?_⟩
      cases e with
      | quit => simp [loopIteration, hqa] at h
      | keyDown sc =>
        by_cases hsc : sc = escapeScancode
        · simp [loopIteration, hqa, hsc] at h
        · cases r2 with
          | some c => simp [loopIteration, hqa, hsc] at h
          | none =>
            simp [loopIteration, hqa, hsc] at h
            rw [h]
      | keyUp sc =>
        cases r2 with
        | some c => simp [loopIteration, hqa] at h
        | none =>
          simp [loopIteration, hqa] at h
          rw [h]
      | textInput v =>
        cases r2 with
        | some c => simp [loopIteration, hqa] at h
        | none =>
          simp [loopIteration, hqa] at h
          rw [h]
      | other =>
        cases r2 with
        | some c => simp [loopIteration, hqa] at h
        | none =>
          simp [loopIteration, hqa] at h
          rw [h]

theorem loopIteration_blocked_iff (ec : Nat) (q a : List EventM) (r2 : Option Nat) :
    loopIteration ec q a none r2 = IterOut.blocked ↔ q ++ a = [] := by
  constructor
  · intro h
    cases hqa : q ++ a with
    | nil => rfl
    | cons e rest =>
      exfalso
      cases e with
      | quit => simp [loopIteration, hqa] at h
      | keyDown sc =>
        by_cases hsc : sc = escapeScancode
        · simp [loopIteration, hqa, hsc] at h
        · cases r2 <;> simp [loopIteration, hqa, hsc] at h
      | keyUp sc => cases r2 <;> simp [loopIteration, hqa] at h
      | textInput v => cases r2 <;> simp [loopIteration, hqa] at h
      | other => cases r2 <;> simp [loopIteration, hqa] at h
  · intro h
    simp [loopIteration, h]

theorem runLoop_drop (ec : Nat) : ∀ (inputs : List IterInput) (q q2 : List EventM),
    inputs.length ≤ q.length → runLoop ec q inputs = RunOut.running q2 →
    ∃ extra, q2 = q.drop inputs.length ++ extra := by
  intro inputs
  induction inputs with
  | nil =>
    intro q q2 _ h
    simp [runLoop] at h
    exact ⟨[], by simp [h]⟩
  | cons inp rest ih =>
    intro q q2 hlen hrun
    cases q with
    | nil => simp at hlen
    | cons qh qt =>
      cases hit : loopIteration ec (qh :: qt) inp.arrivals inp.r1 inp.r2 with
      | exited c => simp [runLoop, hit] at hrun
      | blocked => simp [runLoop, hit] at hrun
      | next q1 =>
        have hq1 : q1 = qt ++ inp.arrivals := by
          rcases loopIteration_next_eq ec (qh :: qt) inp.arrivals inp.r1 inp.r2
              q1 hit with ⟨e, he⟩
          rw [List.cons_append] at he
          exact ((List.cons.injEq qh (qt ++ inp.arrivals) e q1).mp he).2.symm
        have hlenq : rest.length ≤ qt.length := by
          simp only [List.length_cons] at hlen
          omega
        have hlen2 : rest.length ≤ q1.length := by
          rw [hq1, List.length_append]
          omega
        have hrun2 : runLoop ec q1 rest = RunOut.running q2 := by
          simpa [runLoop, hit] using hrun
        rcases ih q1 q2 hlen2 hrun2 with ⟨extra, hex⟩
        refine ⟨inp.arrivals ++ extra, ?_⟩
        rw [hex, hq1, List.drop_append_of_le_length hlenq,
          List.length_cons, List.drop_succ_cons, List.append_assoc]

/-! ## Claim theorems -/

/-- C1: the claim states that the escape/abort action terminates the
session with process exit code 1 for every dialog variant. It does not:
`main` initializes `exit_code` to 0 (src/main.rs line 804) and the
`Escape` key-down arm only breaks the loop (lines 828-830) without
assigning `exit_code`, so the process exits with code 0. Starting from
`main`'s entry state (exit code 0, empty queue), an iteration whose sole
arriving event is an Escape key-down — the renders having reported no exit
code, which is the mid-edit, no-confirm situation for every variant, since
the event match never inspects the dialog — terminates the run with exit
code 0, and 0 is not 1. A second scenario first applies a text-input event
(mid-edit) and then the Escape key-down, with the same outcome. -/
theorem escape_terminates_with_exit_code_zero :
    runLoop 0 []
        [{ arrivals := [EventM.keyDown escapeScancode], r1 := none, r2 := none }] =
      RunOut.exited 0 ∧
    runLoop 0 []
        [{ arrivals := [EventM.textInput true, EventM.keyDown escapeScancode],
           r1 := none, r2 := none },
         { arrivals := [], r1 := none, r2 := none }] = RunOut.exited 0 ∧
    (0 : Nat) ≠ 1 := by
  decide

/-- C2: confirming the entry at index 0 of a file dialog whose current
path has a parent never resolves the dialog: no exit code is set, nothing
is printed, the path is replaced by its parent and the entries are rebuilt
from it with the selection index reset to 0. -/
theorem go_up_navigates_and_never_resolves (fs : Fs) (d0 : FileDialog)
    (hpar : ¬ d0.path.isEmpty) :
    render_file_dialog fs d0 0 true false false =
      some ({ path := d0.path.dropLast,
              entries := FileDialogEntries.new fs d0.path.dropLast },
            none, none) ∧
    (FileDialogEntries.new fs d0.path.dropLast).index = 0 := by
  refine ⟨?_, FileDialogEntries.new_index fs _⟩
  simp [render_file_dialog, hpar]

/-- Witness for C2 at a concrete dialog and filesystem. -/
theorem go_up_navigates_and_never_resolves_witness :
    ¬ (([[97]] : PathM)).isEmpty ∧
    render_file_dialog (fun _ => DirListing.ok [])
        { path := [[97]], entries := { entries := [upOneLevel], index := 0 } }
        0 true false false =
      some ({ path := ([[97]] : PathM).dropLast,
              entries := FileDialogEntries.new (fun _ => DirListing.ok [])
                (([[97]] : PathM).dropLast) },
            none, none) :=
  ⟨by decide,
   (go_up_navigates_and_never_resolves (fun _ => DirListing.ok [])
      { path := [[97]], entries := { entries := [upOneLevel], index := 0 } }
      (by decide)).1⟩

/-- C9: a menu-mode argument list with an unpaired trailing tag (an odd
number of tag/label values) never constructs a menu dialog: `Dialog::menu`
returns `None` and `Dialog::new` falls through to `usage`, which prints
the help text and exits the process with code 0. -/
theorem menu_unpaired_tag_prints_usage_and_exits_zero (text : String)
    (width height menu_height : Nat) (rest : List String)
    (hodd : rest.length % 2 = 1) :
    Dialog.menu text width height menu_height rest = none ∧
    Dialog.newMenuMode text width height menu_height rest =
      NewOutcome.usageExit 0 := by
  have hp := menuPairs_none_of_odd rest hodd
  refine ⟨?_, ?_⟩
  · simp [Dialog.menu, hp]
  · simp [Dialog.newMenuMode, Dialog.menu, hp, usageExitCode]

/-- Witness for C9 on the argument list of the spec's menu scenario with
its final label removed. -/
theorem menu_unpaired_tag_prints_usage_and_exits_zero_witness :
    (["yes", "Confirm", "no"] : List String).length % 2 = 1 ∧
    Dialog.newMenuMode "Pick one" 300 200 24 ["yes", "Confirm", "no"] =
      NewOutcome.usageExit 0 :=
  ⟨by decide,
   (menu_unpaired_tag_prints_usage_and_exits_zero "Pick one" 300 200 24
      ["yes", "Confirm", "no"] (by decide)).2⟩

/-- C5: confirming an input dialog via the submit action (the text field
reporting enter pressed) resolves with exit code 0 and prints the buffer
contents up to, excluding, its first terminator byte; and submitting
without edits when initial text was supplied reproduces that initial text
truncated to the capacity bound (the buffer's 1023 text bytes before the
final terminator). -/
theorem input_submit_resolves_zero_and_prints_buffer (i : Bytes)
    (hnul : 0 ∉ i) :
    (∀ d : InputDialog,
       render_input_dialog d true false false =
         (some 0, some (printedText d.data))) ∧
    printedText (inputboxData (some i)) = i.take (MAX_TEXT_LENGTH - 1) := by
  refine ⟨?_, printedText_inputboxData i hnul⟩
  intro d
  simp [render_input_dialog]

/-- Witness for C5 with initial text of bytes "hi". -/
theorem input_submit_resolves_zero_and_prints_buffer_witness :
    (0 ∉ ([104, 105] : Bytes)) ∧
    render_input_dialog { text := "p", data := [104, 105, 0] } true false false =
      (some 0, some (printedText [104, 105, 0])) ∧
    printedText (inputboxData (some [104, 105])) =
      ([104, 105] : Bytes).take (MAX_TEXT_LENGTH - 1) :=
  ⟨by decide,
   (input_submit_resolves_zero_and_prints_buffer [104, 105] (by decide)).1
     { text := "p", data := [104, 105, 0] },
   (input_submit_resolves_zero_and_prints_buffer [104, 105] (by decide)).2⟩

/-- C6: the input-dialog edit buffer is a fixed-capacity 1024-byte region:
however it is initialized from the command line and whatever sequence of
edits is applied, its length stays exactly 1024 bytes (so never exceeds
1024) and it always contains a terminator byte. -/
theorem input_buffer_fixed_capacity_and_terminated (initial : Option Bytes)
    (edits : List Bytes) :
    (applyEdits (inputboxData initial) edits).length = MAX_TEXT_LENGTH ∧
    0 ∈ applyEdits (inputboxData initial) edits :=
  applyEdits_invariant edits (inputboxData initial)
    (length_inputboxData initial) (zero_mem_inputboxData initial)

/-- C10: `FileDialog::selected_path` unconditionally indexes the entry
list at the selection index, so it has the precondition that `entries` is
non-empty: on an empty listing it reaches the out-of-bounds panic
(modelled by `none`) for every selection index, and in
`render_file_dialog` pressing the OK button on an empty listing sets exit
code 0 and then panics in the selected-path computation instead of
producing a printed path. -/
theorem selected_path_panics_on_empty_entries (fs : Fs) (d0 : FileDialog)
    (hempty : d0.entries.entries = []) :
    (∀ n : Nat,
       FileDialog.selected_path
         { d0 with entries := { d0.entries with index := n } } = none) ∧
    render_file_dialog fs d0 d0.entries.index false true false = none := by
  refine ⟨?_, ?_⟩
  · intro n
    simp [FileDialog.selected_path, hempty]
  · simp [render_file_dialog, FileDialog.selected_path, hempty]

/-- Witness for C10 at a concrete empty-listing dialog. -/
theorem selected_path_panics_on_empty_entries_witness :
    ({ path := [[97]], entries := { entries := [], index := 0 } } :
        FileDialog).entries.entries = [] ∧
    render_file_dialog (fun _ => DirListing.statError)
        { path := [[97]], entries := { entries := [], index := 0 } }
        0 false true false = none :=
  ⟨rfl,
   (selected_path_panics_on_empty_entries (fun _ => DirListing.statError)
      { path := [[97]], entries := { entries := [], index := 0 } } rfl).2⟩

/-- C8: every listing failure — unreadable metadata, a non-directory path,
or unenumerable children — degrades to the empty entries listing with
index 0; no error value is produced or propagated (`FileDialogEntries.new`
is total). On a successful listing, an individually undecodable (or
skipped) entry contributes nothing: removing it from the children leaves
the built listing unchanged, and the listing length accounts exactly for
the decodable entries plus the synthetic go-up entry. -/
theorem lister_errors_degrade_to_empty_listing (fs : Fs) (path : PathM) :
    (fs path = DirListing.statError ∨ fs path = DirListing.notDirectory ∨
        fs path = DirListing.readDirError →
      FileDialogEntries.new fs path = { entries := [], index := 0 }) ∧
    (∀ children, fs path = DirListing.ok children →
      FileDialogEntries.new fs path = buildFileEntries (!path.isEmpty) children ∧
      (∀ pre bad post, children = pre ++ bad :: post → displayName bad = none →
        buildFileEntries (!path.isEmpty) children =
          buildFileEntries (!path.isEmpty) (pre ++ post)) ∧
      (FileDialogEntries.new fs path).entries.length =
        (children.filterMap displayName).length +
          (if path.isEmpty then 0 else 1)) := by
  refine ⟨?_, ?_⟩
  · intro herr
    rcases herr with h | h | h <;>
      simp [FileDialogEntries.new, h, FileDialogEntries.noneEntries]
  · intro children hok
    refine ⟨?_, ?_, ?_⟩
    · simp [FileDialogEntries.new, hok]
    · intro pre bad post hsplit hbad
      subst hsplit
      simp [buildFileEntries, List.filterMap_append, hbad]
    · simp only [FileDialogEntries.new, hok, buildFileEntries]
      cases hp : path.isEmpty <;>
        simp [length_sortEntries]

/-- Witness for C8 at a filesystem reporting a stat failure. -/
theorem lister_errors_degrade_to_empty_listing_witness :
    ((fun _ => DirListing.statError) ([[97]] : PathM) = DirListing.statError) ∧
    FileDialogEntries.new (fun _ => DirListing.statError) [[97]] =
      { entries := [], index := 0 } :=
  ⟨rfl,
   (lister_errors_degrade_to_empty_listing (fun _ => DirListing.statError)
      [[97]]).1 (Or.inl rfl)⟩

/-- C4 counterexample: the claim says the whole Directory Lister output is
sorted byte-lexicographically while the synthetic go-up entry sits at
index 0. For a directory with a parent containing one file named "A"
(byte 65), the output is `["Up one level", "A"]`, and "Up one level"
(leading byte 85) compares byte-lexicographically greater than "A", so
the output as a whole is not sorted. -/
theorem lister_output_with_go_up_not_sorted :
    (FileDialogEntries.new (fun _ => DirListing.ok [RawEntry.named [65] false])
        [[97]]).entries = [upOneLevel, [65]] ∧
    ¬ EntriesSorted
      (FileDialogEntries.new (fun _ => DirListing.ok [RawEntry.named [65] false])
        [[97]]).entries := by
  refine ⟨by decide, ?_⟩
  decide

/-- C4 as amended: the Directory Lister output minus the synthetic go-up
entry is sorted byte-lexicographically (raw `strcmp`, not locale-aware);
the synthetic go-up entry is prepended at index 0 exactly when the path
has a parent (and otherwise the output is exactly the sorted listing);
every non-synthetic entry is the display string of a named child and
carries the trailing `/` marker exactly when that child is a directory;
and the selection index is 0 after every rebuild. -/
theorem lister_output_sorted_marked_and_reset (fs : Fs) (path : PathM)
    (children : List RawEntry) (hok : fs path = DirListing.ok children)
    (hname : ∀ n d, RawEntry.named n d ∈ children → 47 ∉ n) :
    (FileDialogEntries.new fs path).index = 0 ∧
    EntriesSorted ((FileDialogEntries.new fs path).entries.drop
      (if path.isEmpty then 0 else 1)) ∧
    (¬ path.isEmpty →
      (FileDialogEntries.new fs path).entries.head? = some upOneLevel) ∧
    (path.isEmpty →
      (FileDialogEntries.new fs path).entries =
        sortEntries (children.filterMap displayName)) ∧
    (FileDialogEntries.new fs path).entries.length =
      (children.filterMap displayName).length +
        (if path.isEmpty then 0 else 1) ∧
    (∀ e ∈ (FileDialogEntries.new fs path).entries.drop
        (if path.isEmpty then 0 else 1),
      ∃ n d, RawEntry.named n d ∈ children ∧
        e = (if d then n ++ [47] else n) ∧
        (e.getLast? = some 47 ↔ d = true)) := by
  have hnew : FileDialogEntries.new fs path =
      buildFileEntries (!path.isEmpty) children := by
    simp [FileDialogEntries.new, hok]
  rw [hnew]
  have hdrop : (buildFileEntries (!path.isEmpty) children).entries.drop
      (if path.isEmpty then 0 else 1) =
      sortEntries (children.filterMap displayName) := by
    cases hp : path.isEmpty <;> simp [buildFileEntries]
  refine ⟨by simp [buildFileEntries], ?_, ?_, ?_, ?_, ?_⟩
  · rw [hdrop]
    exact sortEntries_sorted _
  · intro hp
    simp only [Bool.not_eq_true] at hp
    simp [buildFileEntries, List.isEmpty_eq_false_iff_exists_mem] at hp ⊢
    simp [hp]
  · intro hp
    simp [buildFileEntries, hp]
  · cases hp : path.isEmpty <;> simp [buildFileEntries, length_sortEntries]
  · rw [hdrop]
    intro e he
    have hmem : e ∈ children.filterMap displayName :=
      (mem_sortEntries e _).mp he
    rcases List.mem_filterMap.mp hmem with ⟨re, hre, hdisp⟩
    cases re with
    | err => simp [displayName] at hdisp
    | noName => simp [displayName] at hdisp
    | undecodable => simp [displayName] at hdisp
    | named n d =>
      refine ⟨n, d, hre, ?_, ?_⟩
      · by_cases h0 : 0 ∈ n
        · simp [displayName, h0] at hdisp
        · cases d <;> simp [displayName, h0] at hdisp <;> simp [hdisp]
      · have h47 : 47 ∉ n := hname n d hre
        by_cases h0 : 0 ∈ n
        · simp [displayName, h0] at hdisp
        · cases d with
          | true =>
            simp [displayName, h0] at hdisp
            subst hdisp
            simp [List.getLast?_concat]
          | false =>
            simp [displayName, h0] at hdisp
            subst hdisp
            simp only [iff_false, Bool.false_eq_true]
            intro hlast
            exact h47 (mem_of_getLast?_eq n 47 hlast)

/-- Witness for C4's amended statement at a directory holding a
subdirectory "b" and a file "a". -/
theorem lister_output_sorted_marked_and_reset_witness :
    exampleFs examplePath =
      DirListing.ok [RawEntry.named [98] true, RawEntry.named [97] false] ∧
    (FileDialogEntries.new exampleFs examplePath).index = 0 ∧
    EntriesSorted ((FileDialogEntries.new exampleFs examplePath).entries.drop
      (if examplePath.isEmpty then 0 else 1)) :=
  have hname : ∀ n d,
      RawEntry.named n d ∈
        [RawEntry.named [98] true, RawEntry.named [97] false] → 47 ∉ n := by
    intro n d h
    simp only [List.mem_cons, List.mem_singleton, RawEntry.named.injEq,
      List.not_mem_nil, or_false] at h
    rcases h with ⟨hn, _⟩ | ⟨hn, _⟩ <;> subst hn <;> decide
  ⟨rfl,
   (lister_output_sorted_marked_and_reset exampleFs examplePath _ rfl hname).1,
   (lister_output_sorted_marked_and_reset exampleFs examplePath _ rfl hname).2.1⟩

/-- C3: processing a draw frame issues exactly one indexed draw per
sub-command — in submission order, with the index-buffer cursor of each
batch advanced by the preceding sub-commands' element counts — so the
number of draw calls equals the total sub-command count across batches;
each clip rectangle is translated to framebuffer coordinates with the
vertical axis inverted (`y` becomes `FRAMEBUFFER_HEIGHT - clipW`); and,
for sub-commands whose clip rectangles are well-formed (left ≤ right,
top ≤ bottom), every post-transform scissor rectangle has non-negative
width and height. -/
theorem draw_bridge_one_draw_per_subcommand (lists : List DrawList)
    (hwf : ∀ dl ∈ lists, ∀ c ∈ dl.cmds, c.clipX ≤ c.clipZ ∧ c.clipY ≤ c.clipW) :
    (render_draw_lists lists).filterMap drawOf =
      lists.flatMap (fun dl => cmdDraws 0 dl.cmds) ∧
    ((render_draw_lists lists).filterMap drawOf).length =
      (lists.map (fun dl => dl.cmds.length)).sum ∧
    (render_draw_lists lists).filterMap scissorOf =
      lists.flatMap (fun dl => dl.cmds.map clipToScissor) ∧
    (∀ x y w h : Int, GLCall.scissor x y w h ∈ render_draw_lists lists →
      0 ≤ w ∧ 0 ≤ h) := by
  refine ⟨filterMap_drawOf_render_draw_lists lists, ?_,
    filterMap_scissorOf_render_draw_lists lists, ?_⟩
  · rw [filterMap_drawOf_render_draw_lists]
    exact length_flatMap_cmdDraws lists
  · intro x y w h hmem
    have hsc : (x, y, w, h) ∈ (render_draw_lists lists).filterMap scissorOf :=
      List.mem_filterMap.mpr ⟨GLCall.scissor x y w h, hmem, rfl⟩
    rw [filterMap_scissorOf_render_draw_lists] at hsc
    rcases List.mem_flatMap.mp hsc with ⟨dl, hdl, hmem2⟩
    rcases List.mem_map.mp hmem2 with ⟨c, hc, heq⟩
    have hcs := hwf dl hdl c hc
    simp only [clipToScissor, Prod.mk.injEq] at heq
    obtain ⟨-, -, hw, hh⟩ := heq
    constructor <;> omega

/-- Witness for C3 at the example draw data. -/
theorem draw_bridge_one_draw_per_subcommand_witness :
    (∀ dl ∈ exampleDrawLists, ∀ c ∈ dl.cmds,
      c.clipX ≤ c.clipZ ∧ c.clipY ≤ c.clipW) ∧
    (render_draw_lists exampleDrawLists).filterMap drawOf =
      exampleDrawLists.flatMap (fun dl => cmdDraws 0 dl.cmds) :=
  ⟨by decide, (draw_bridge_one_draw_per_subcommand exampleDrawLists (by decide)).1⟩

/-- C7: in every completed-and-continuing iteration of the session loop
exactly one event — the queue's head — is removed and applied, whatever
arrives meanwhile is appended behind it; an iteration blocks exactly when
the queue is empty and no event ever becomes available, the blocking wait
otherwise supplying the first arrival and the drain the rest; consequently
the first K queued events are consumed one per iteration, so after any
n ≤ K continuing iterations the initial queue's entries from position n on
— in particular a confirm event queued behind K earlier events — are still
pending, and consuming that confirm event needs at least K + 1
iterations. -/
theorem one_event_per_iteration_and_confirm_needs_k_plus_one
    (ec : Nat) (q0 : List EventM) :
    (∀ (q a : List EventM) (r1 r2 : Option Nat) (q2 : List EventM),
      loopIteration ec q a r1 r2 = IterOut.next q2 → ∃ e, q ++ a = e :: q2) ∧
    (∀ (q a : List EventM) (r2 : Option Nat),
      loopIteration ec q a none r2 = IterOut.blocked ↔ q ++ a = []) ∧
    (∀ (inputs : List IterInput) (q2 : List EventM),
      inputs.length ≤ q0.length →
      runLoop ec q0 inputs = RunOut.running q2 →
      ∃ extra, q2 = q0.drop inputs.length ++ extra) :=
  ⟨fun q a r1 r2 q2 h => loopIteration_next_eq ec q a r1 r2 q2 h,
   fun q a r2 => loopIteration_blocked_iff ec q a r2,
   fun inputs q2 h1 h2 => runLoop_drop ec inputs q0 q2 h1 h2⟩

/-- Witness for C7: two queued events ahead of a Return key-down confirm
event; after two continuing iterations the confirm event is still the
whole remaining queue. -/
theorem one_event_per_iteration_and_confirm_needs_k_plus_one_witness :
    ([{ arrivals := [], r1 := none, r2 := none },
      { arrivals := [], r1 := none, r2 := none }] : List IterInput).length ≤
      ([EventM.other, EventM.other, EventM.keyDown 13] : List EventM).length ∧
    runLoop 0 [EventM.other, EventM.other, EventM.keyDown 13]
      [{ arrivals := [], r1 := none, r2 := none },
       { arrivals := [], r1 := none, r2 := none }] =
      RunOut.running [EventM.keyDown 13] ∧
    ∃ extra, [EventM.keyDown 13] =
      ([EventM.other, EventM.other, EventM.keyDown 13] : List EventM).drop
        ([{ arrivals := [], r1 := none, r2 := none },
           { arrivals := [], r1 := none, r2 := none }] : List IterInput).length
        ++ extra :=
  ⟨by decide, by decide,
   (one_event_per_iteration_and_confirm_needs_k_plus_one 0
      [EventM.other, EventM.other, EventM.keyDown 13]).2.2
     [{ arrivals := [], r1 := none, r2 := none },
      { arrivals := [], r1 := none, r2 := none }]
     [EventM.keyDown 13] (by decide) (by decide)⟩

end Imdialog
